import Mathlib

/-!
Verification development for the AzLure log pipeline
(src/log_pipeline/parser.py).

The pipeline's pure logic is embedded shallowly:
* Python strings are Lean `String` / `List Char`; byte decoding with
  errors="replace" is total, so blob bodies are modelled as decoded text.
* `json.loads` is an external library call; it is modelled as an
  uninterpreted parameter `loads : String → Option JValue` (`none` models
  `json.JSONDecodeError`).  JSON numbers are modelled as integers; no
  statement proved here inspects numeric values.
* The SQLite-backed `EventStore` is modelled as an explicit in-memory
  state, and each committed SQL statement as one `Op` applied to it.
* Exceptions raised by external calls are modelled with `Except`.
-/

namespace AzLure

/-! ### Python string primitives -/

/-- Characters stripped by Python `str.strip()` (whitespace). -/
def isPySpace (c : Char) : Bool :=
  c == ' ' || c == '\t' || c == '\n' || c == '\r' || c == '\x0b' || c == '\x0c' ||
  c == '\x1c' || c == '\x1d' || c == '\x1e' || c == '\x1f' || c == '\x85' || c == '\xa0' ||
  c.toNat == 0x1680 || (0x2000 ≤ c.toNat && c.toNat ≤ 0x200a) ||
  c.toNat == 0x2028 || c.toNat == 0x2029 || c.toNat == 0x202f || c.toNat == 0x205f ||
  c.toNat == 0x3000


/-- Python `str.strip()` on character lists. -/
def pyStrip (s : List Char) : List Char :=
  ((s.dropWhile isPySpace).reverse.dropWhile isPySpace).reverse

/-- Line boundary characters recognised by Python `str.splitlines()`. -/
def isLineBreak (c : Char) : Bool :=
  c == '\n' || c == '\r' || c == '\x0b' || c == '\x0c' || c == '\x1c' || c == '\x1d' ||
  c == '\x1e' || c == '\x85' || c.toNat == 0x2028 || c.toNat == 0x2029

/-- Worker for `pySplitlines`; `cur` holds the current line reversed. -/
def splitlinesAux (cur : List Char) : List Char → List (List Char)
  | [] => if cur.isEmpty then [] else [cur.reverse]
  | '\r' :: '\n' :: rest2 => cur.reverse :: splitlinesAux [] rest2
  | c :: rest =>
    if isLineBreak c then cur.reverse :: splitlinesAux [] rest
    else splitlinesAux (c :: cur) rest

/-- Python `str.splitlines()` (a trailing line break does not produce a
trailing empty line). -/
def pySplitlines (s : List Char) : List (List Char) :=
  splitlinesAux [] s

/-- Python `str.lower()`.  Lean's `Char.toLower` covers ASCII; the rules and
events exercised by the modelled claims are ASCII. -/
def pyLowerStr (s : String) : String :=
  ⟨s.data.map Char.toLower⟩

/-- Python substring test `needle in hay`. -/
def strContainsSub (needle hay : String) : Bool :=
  decide (needle.data <:+: hay.data)

/-- Python `a or b` on optional strings (`None` and `""` are falsy). -/
def pyOrStr (a b : Option String) : Option String :=
  match a with
  | none => b
  | some s => if s == "" then b else some s

/-! ### redact_sas (parser.py lines 40-47)

One pass of Python `str.replace` for a nonempty pattern `p :: ps`:
left-to-right, non-overlapping replacement of every occurrence by `repl`. -/

def replaceAll (p : Char) (ps repl : List Char) : List Char → List Char
  | [] => []
  | c :: rest =>
    if (p :: ps) <+: (c :: rest) then
      repl ++ replaceAll p ps repl (rest.drop ps.length)
    else
      c :: replaceAll p ps repl rest
termination_by s => s.length
decreasing_by
  · simp only [List.length_drop, List.length_cons]; omega
  · simp only [List.length_cons]; omega

/-- `str.replace` for an arbitrary pattern (the empty pattern does not occur
in the program; Python would interleave the replacement everywhere). -/
def replacePat (pat repl s : List Char) : List Char :=
  match pat with
  | [] => s
  | p :: ps => replaceAll p ps repl s

/-- The SAS query-parameter keys redacted by `redact_sas` (parser.py line 44). -/
def sasKeys : List String := ["sig", "se", "st", "sp", "spr", "sv", "skoid", "sktid"]

/-- Character-level body of `redact_sas`: for each key in order, replace every
occurrence of "key=" by "key=REDACTED" (the value suffix is left in place). -/
def redactChars (u : List Char) : List Char :=
  sasKeys.foldl
    (fun acc key => replacePat (key.data ++ ['=']) (key.data ++ "=REDACTED".data) acc) u

/-- `redact_sas(uri)` (parser.py lines 40-47): `None` and `""` are returned
unchanged by the falsy guard, otherwise every SAS key is rewritten. -/
def redact_sas : Option String → Option String
  | none => none
  | some s => if s == "" then some s else some ⟨redactChars s.data⟩

/-! ### JSON values (results of `json.loads`) -/

inductive JValue where
  | null
  | bool (b : Bool)
  | num (z : Int)
  | str (s : String)
  | arr (elems : List JValue)
  | obj (fields : List (String × JValue))

/-- A JSON object (Python dict with string keys, in insertion order). -/
abbrev JObj := List (String × JValue)

/-- First value bound to key `k` (Python dict lookup; `json.loads` produces
duplicate-free key lists). -/
def dictGet (d : JObj) (k : String) : Option JValue :=
  match d.find? (fun kv => kv.1 == k) with
  | some kv => some kv.2
  | none => none

/-- Python `d[k] = v`: update in place if the key exists, else append. -/
def dictSet (d : JObj) (k : String) (v : JValue) : JObj :=
  match d with
  | [] => [(k, v)]
  | (k', v') :: rest => if k' == k then (k, v) :: rest else (k', v') :: dictSet rest k v

/-- Python truthiness of a JSON value. -/
def pyFalsy : JValue → Bool
  | .null => true
  | .bool b => !b
  | .num z => z == 0
  | .str s => s == ""
  | .arr l => l.isEmpty
  | .obj f => f.isEmpty

/-- Hexadecimal digit for JSON escape sequences. -/
def hexDigit (n : Nat) : Char :=
  if n < 10 then Char.ofNat (48 + n) else Char.ofNat (87 + (n % 16))

/-- Escape of one character inside a JSON string literal
(`json.dumps` with ensure_ascii=False). -/
def jsonEscChar (c : Char) : String :=
  if c == '"' then "\\\""
  else if c == '\\' then "\\\\"
  else if c == '\n' then "\\n"
  else if c == '\r' then "\\r"
  else if c == '\t' then "\\t"
  else if c == '\x08' then "\\b"
  else if c == '\x0c' then "\\f"
  else if c.toNat < 0x20 then
    "\\u00" ++ String.mk [hexDigit (c.toNat / 16), hexDigit (c.toNat % 16)]
  else String.singleton c

/-- A JSON string literal for `s` (quotes plus escapes). -/
def jsonQuote (s : String) : String :=
  "\"" ++ String.join (s.data.map jsonEscChar) ++ "\""

mutual
/-- `json.dumps(v, ensure_ascii=False)` with the default separators. -/
def dumps : JValue → String
  | .null => "null"
  | .bool true => "true"
  | .bool false => "false"
  | .num z => toString z
  | .str s => jsonQuote s
  | .arr l => "[" ++ ", ".intercalate (dumpsList l) ++ "]"
  | .obj f => "\x7b" ++ ", ".intercalate (dumpsFields f) ++ "\x7d"

def dumpsList : List JValue → List String
  | [] => []
  | v :: vs => dumps v :: dumpsList vs

def dumpsFields : List (String × JValue) → List String
  | [] => []
  | (k, v) :: kvs => (jsonQuote k ++ ": " ++ dumps v) :: dumpsFields kvs
end

mutual
/-- Python `repr` of a value decoded from JSON (used by `str` on containers).
Inner string escaping is elided; no modelled claim inspects this output. -/
def pyRepr : JValue → String
  | .null => "None"
  | .bool true => "True"
  | .bool false => "False"
  | .num z => toString z
  | .str s => String.singleton (Char.ofNat 39) ++ s ++ String.singleton (Char.ofNat 39)
  | .arr l => "[" ++ ", ".intercalate (pyReprList l) ++ "]"
  | .obj f => "\x7b" ++ ", ".intercalate (pyReprFields f) ++ "\x7d"

def pyReprList : List JValue → List String
  | [] => []
  | v :: vs => pyRepr v :: pyReprList vs

def pyReprFields : List (String × JValue) → List String
  | [] => []
  | (k, v) :: kvs =>
    (String.singleton (Char.ofNat 39) ++ k ++ String.singleton (Char.ofNat 39) ++ ": " ++
      pyRepr v) :: pyReprFields kvs
end

/-- Python `str()` of a value decoded from JSON. -/
def pyStr : JValue → String
  | .null => "None"
  | .bool true => "True"
  | .bool false => "False"
  | .num z => toString z
  | .str s => s
  | .arr l => pyRepr (.arr l)
  | .obj f => pyRepr (.obj f)

/-! ### Event normalization (parser.py lines 49-119) -/

/-- `flatten(d)` (parser.py lines 49-56): copy the record and re-expose every
key nested under "properties" with a "properties." prefix.  A truthy
non-dict "properties" value raises AttributeError on `.items()`. -/
def flatten (d : JObj) : Except Unit JObj :=
  match dictGet d "properties" with
  | none => .ok d
  | some v =>
    if pyFalsy v then .ok d
    else
      match v with
      | .obj props =>
        .ok (props.foldl (fun out kv => dictSet out ("properties." ++ kv.1) kv.2) d)
      | _ => .error ()

/-- `guess_category(container_name, record)` (parser.py lines 58-68). -/
def guess_category (container_name : String) (record : JObj) : JValue :=
  let c := pyLowerStr container_name
  if strContainsSub "storageread" c then .str "StorageRead"
  else if strContainsSub "storagewrite" c then .str "StorageWrite"
  else if strContainsSub "auditevent" c then .str "AuditEvent"
  else if strContainsSub "activity" c then .str "Activity"
  else
    match dictGet record "category" with
    | none => .str "Unknown"
    | some v => if pyFalsy v then .str "Unknown" else v

/-- Values skipped by the candidate-key lookup `g` in `normalize_event`
(parser.py line 77: `r[k] not in (None, "")`). -/
def gExcluded : JValue → Bool
  | .null => true
  | .str s => s == ""
  | _ => false

/-- The ordered candidate-key lookup `g(*keys)` of `normalize_event`
(parser.py lines 75-79): first present value not `None` and not `""`. -/
def gLookup (r : JObj) : List String → Option JValue
  | [] => none
  | k :: ks =>
    match dictGet r k with
    | some v => if gExcluded v then gLookup r ks else some v
    | none => gLookup r ks

/-- One normalized event (the dict built at parser.py lines 106-118). -/
structure Event where
  time : Option JValue
  category : JValue
  operation_name : Option JValue
  request_uri : Option JValue
  request_uri_redacted : Option JValue
  caller_ip : Option JValue
  user_agent : Option JValue
  status_code : Option String
  auth_type : Option JValue
  resource_id : Option JValue
  raw_json : String

/-- The call `redact_sas(uri)` on the looked-up uri value: falsy values are
returned unchanged; `.replace` on a truthy non-string raises AttributeError. -/
def redactJ : Option JValue → Except Unit (Option JValue)
  | none => .ok none
  | some (.str s) => .ok ((redact_sas (some s)).map JValue.str)
  | some v => if pyFalsy v then .ok (some v) else .error ()

/-- `normalize_event(container_name, rec)` (parser.py lines 70-119); the
`Except` captures exceptions escaping it (AttributeError from `flatten` or
from `redact_sas`), which `run_once` catches around the record loop. -/
def normalize_event (container_name : String) (rec : JObj) : Except Unit Event := do
  let r ← flatten rec
  let uri := gLookup r ["requestUri", "properties.requestUri", "uri", "properties.uri"]
  let redacted ← redactJ uri
  let status := gLookup r
    ["statusCode", "properties.httpStatusCode", "properties.statusCode", "resultType"]
  .ok
    { time := gLookup r ["time", "TimeGenerated"]
      category := guess_category container_name r
      operation_name := gLookup r
        ["operationName", "operationNameValue", "properties.operationName",
         "properties.operation"]
      request_uri := uri
      request_uri_redacted := redacted
      caller_ip := gLookup r
        ["callerIpAddress", "properties.callerIpAddress", "callerIp", "properties.callerIp"]
      user_agent := gLookup r
        ["userAgentHeader", "properties.userAgentHeader", "userAgent", "properties.userAgent"]
      status_code := status.map pyStr
      auth_type := gLookup r
        ["authenticationType", "properties.authenticationType", "properties.authType"]
      resource_id := gLookup r ["resourceId", "properties.resourceId"]
      raw_json := dumps (.obj rec) }

/-! ### parse_blob_bytes (parser.py lines 121-161) -/

/-- `isinstance(rec, dict)` filter used on yielded elements. -/
def asObjRec : JValue → Option JObj
  | .obj f => some f
  | _ => none

/-- The NDJSON fallback loop of `parse_blob_bytes` (parser.py lines 154-161):
strip each line, skip empty lines, keep lines parsing to a dict, silently
skip decode errors and non-dict lines. -/
def ndjsonRecords (loads : String → Option JValue) (body : List Char) : List JObj :=
  (pySplitlines body).filterMap (fun line =>
    let line := pyStrip line
    if line.isEmpty then none
    else
      match loads ⟨line⟩ with
      | some (.obj f) => some f
      | _ => none)

/-- `parse_blob_bytes` (parser.py lines 121-161) over the decoded body,
parameterized by the behaviour of `json.loads`.  A successful whole-body
parse to a scalar hits none of the three isinstance branches and falls
through to the NDJSON loop. -/
def parse_blob_bytes (loads : String → Option JValue) (b : List Char) : List JObj :=
  let body := pyStrip b
  if body.isEmpty then []
  else
    match loads ⟨body⟩ with
    | some (.obj fields) =>
      match dictGet fields "records" with
      | some (.arr recs) => recs.filterMap asObjRec
      | _ => [fields]
    | some (.arr recs) => recs.filterMap asObjRec
    | some _ => ndjsonRecords loads body
    | none => ndjsonRecords loads body

/-- Line handling as worded by the spec (section 4.2, rule 4): yield each
line successfully parsed as a map, silently skip malformed or empty lines. -/
def specNdjson (loads : String → Option JValue) (body : List Char) : List JObj :=
  (pySplitlines body).filterMap (fun line =>
    let l := pyStrip line
    if l.isEmpty then none else (loads ⟨l⟩).bind asObjRec)

/-- Modelled from the spec (section 4.2): the four-rule first-success-wins
parsing policy, used as the comparison point for claim C6. -/
def parseSpecPolicy (loads : String → Option JValue) (b : List Char) : List JObj :=
  let body := pyStrip b
  if body.isEmpty then []
  else
    match loads ⟨body⟩ with
    | some (.obj fields) =>
      match dictGet fields "records" with
      | some (.arr recs) => recs.filterMap asObjRec
      | _ => [fields]
    | some (.arr recs) => recs.filterMap asObjRec
    | _ => specNdjson loads body

/-! ### Rules and event_matches (parser.py lines 321-337) -/

/-- The `contains` mapping of a rule's `when` clause; the recognized keys are
"field", "all" and "any" (spec section 3). -/
structure ContainsClause where
  field : Option String
  all : Option (List String)
  any : Option (List String)

/-- The `when` mapping of a rule (`rule.get("when", dict())` yields the
no-constraint value when absent). -/
structure RuleWhen where
  category : Option String
  contains : Option ContainsClause

/-- A configured detection rule. -/
structure Rule where
  name : String
  whenCl : RuleWhen

/-- Python truthiness of the `contains` mapping: a dict is truthy when it has
at least one key. -/
def containsTruthy (c : ContainsClause) : Bool :=
  c.field.isSome || c.all.isSome || c.any.isSome

/-- Python `ev.get("category") != cat` specialised to a string right operand. -/
def jEqStr (v : JValue) (s : String) : Bool :=
  match v with
  | .str t => t == s
  | _ => false

/-- `ev.get(field)` on the normalized-event dict built by `normalize_event`. -/
def evGet (ev : Event) (f : String) : Option JValue :=
  if f == "time" then ev.time
  else if f == "category" then some ev.category
  else if f == "operation_name" then ev.operation_name
  else if f == "request_uri" then ev.request_uri
  else if f == "request_uri_redacted" then ev.request_uri_redacted
  else if f == "caller_ip" then ev.caller_ip
  else if f == "user_agent" then ev.user_agent
  else if f == "status_code" then ev.status_code.map JValue.str
  else if f == "auth_type" then ev.auth_type
  else if f == "resource_id" then ev.resource_id
  else if f == "raw_json" then some (.str ev.raw_json)
  else none

/-- `ev.get(field) or ""`: falsy lookup results collapse to `""`. -/
def pyOrEmptyJ : Option JValue → JValue
  | none => .str ""
  | some v => if pyFalsy v then .str "" else v

/-- `event_matches(rule, ev)` (parser.py lines 321-337). -/
def event_matches (rule : Rule) (ev : Event) : Bool :=
  let w := rule.whenCl
  let catFail :=
    match w.category with
    | none => false
    | some cat => if cat == "" then false else !(jEqStr ev.category cat)
  if catFail then false
  else
    match w.contains with
    | none => true
    | some c =>
      if !(containsTruthy c) then true
      else
        match c.field with
        | none => false
        | some f =>
          if f == "" then false
          else
            let val_l := pyLowerStr (pyStr (pyOrEmptyJ (evGet ev f)))
            let allOk :=
              match c.all with
              | none => true
              | some l => l.all (fun s => strContainsSub (pyLowerStr s) val_l)
            let anyOk :=
              match c.any with
              | none => true
              | some l => l.any (fun s => strContainsSub (pyLowerStr s) val_l)
            allOk && anyOk

/-! ### EventStore (parser.py lines 198-290) and the run_once cycle
(parser.py lines 344-387)

Each row-producing SQL statement of `EventStore` commits before returning,
so the store is modelled as a value threaded through a list of committed
operations; wall-clock columns (`processed_at`, `created_at`, `inserted_at`)
are not modelled. -/

/-- One listed blob (the dict yielded by `LogBlobReader.iter_blobs`). -/
structure BlobMeta where
  container : String
  blob_name : String
  etag : Option String

/-- A row of the `events` table. -/
structure EventRow where
  id : Nat
  ev : Event
  container : String
  blob_name : String

/-- A row of the `alerts` table. -/
structure AlertRow where
  rule_name : String
  event_id : Nat

/-- A row of the `processed_blobs` table (primary key (container, blob_name)). -/
structure ProcRow where
  container : String
  blob_name : String
  etag : Option String

/-- The durable store: three tables plus the AUTOINCREMENT counter of
`events.id`. -/
structure Store where
  events : List EventRow
  alerts : List AlertRow
  processed : List ProcRow
  nextId : Nat

/-- `EventStore.blob_processed` (parser.py lines 252-256): membership of the
(container, blob_name) key; the etag argument is accepted and ignored. -/
def Store.blob_processed (st : Store) (container blob_name : String)
    (_etag : Option String) : Bool :=
  st.processed.any (fun p => p.container == container && p.blob_name == blob_name)

/-- `EventStore.mark_blob` (parser.py lines 258-262): INSERT OR REPLACE keyed
by (container, blob_name). -/
def Store.mark_blob (st : Store) (container blob_name : String)
    (etag : Option String) : Store :=
  { st with processed :=
      st.processed.filter (fun p => !(p.container == container && p.blob_name == blob_name))
        ++ [⟨container, blob_name, etag⟩] }

/-- One committed store operation issued by `run_once`. -/
inductive Op where
  | addEvent (container blob_name : String) (ev : Event)
  | addAlert (rule_name : String) (event_id : Nat)
  | markBlob (container blob_name : String) (etag : Option String)

/-- Whether an operation is the marker commit. -/
def Op.isMark : Op → Bool
  | .markBlob _ _ _ => true
  | _ => false

/-- Application of one committed operation; `addEvent` performs the
AUTOINCREMENT id assignment of `EventStore.add_event`. -/
def applyOp (st : Store) : Op → Store
  | .addEvent c n ev =>
    { st with events := st.events ++ [⟨st.nextId, ev, c, n⟩], nextId := st.nextId + 1 }
  | .addAlert r eid => { st with alerts := st.alerts ++ [⟨r, eid⟩] }
  | .markBlob c n etag => st.mark_blob c n etag

/-- Application of a list of committed operations in order. -/
def applyOps (st : Store) (ops : List Op) : Store :=
  ops.foldl applyOp st

/-- The alert appends issued for one stored event (parser.py lines 378-381):
one `add_alert(rule["name"], ev_id)` per matching rule, in configured order. -/
def alertOpsFor (rules : List Rule) (ev : Event) (eid : Nat) : List Op :=
  (rules.filter (fun rule => event_matches rule ev)).map
    (fun rule => Op.addAlert rule.name eid)

/-- Store operations of the record loop (parser.py lines 375-381), given the
id the next `add_event` will be assigned.  A `normalize_event` exception
aborts the remaining records (caught at parser.py line 383). -/
def recsOps (rules : List Rule) (container blob_name : String) :
    Nat → List JObj → List Op
  | _, [] => []
  | nid, rec :: rest =>
    match normalize_event container rec with
    | .error _ => []
    | .ok ev =>
      (Op.addEvent container blob_name ev :: alertOpsFor rules ev nid)
        ++ recsOps rules container blob_name (nid + 1) rest

/-- The environment behind the pipeline: the blobs listed by
`LogBlobReader.iter_blobs` this cycle and the outcome of
`LogBlobReader.download_blob` (`.error` models a raised download exception;
the payload is the downloaded body after optional gzip handling, decoded). -/
structure PipelineEnv where
  blobs : List BlobMeta
  download : BlobMeta → Except Unit String

/-- Store operations committed for one listed blob (parser.py lines 362-387):
skip blobs already in the ledger, skip (without marking) blobs whose download
fails, otherwise append events and alerts for the parsed records and mark the
blob processed regardless of a record-loop failure. -/
def blobOps (rules : List Rule) (loads : String → Option JValue)
    (env : PipelineEnv) (st : Store) (b : BlobMeta) : List Op :=
  if st.blob_processed b.container b.blob_name b.etag then []
  else
    match env.download b with
    | .error _ => []
    | .ok raw =>
      recsOps rules b.container b.blob_name st.nextId (parse_blob_bytes loads raw.data)
        ++ [Op.markBlob b.container b.blob_name b.etag]

/-- Processing of one listed blob as a store transition. -/
def processBlob (rules : List Rule) (loads : String → Option JValue)
    (env : PipelineEnv) (st : Store) (b : BlobMeta) : Store :=
  applyOps st (blobOps rules loads env st b)

/-- The blob loop of `run_once` (parser.py lines 361-387) over an existing
store.  The startup configuration handling is modelled separately by
`runOnceConnCheck`. -/
def run_once (rules : List Rule) (loads : String → Option JValue)
    (env : PipelineEnv) (st : Store) : Store :=
  env.blobs.foldl (processBlob rules loads env) st

/-! ### Startup checks and the scheduler (parser.py lines 344-349, 389-415) -/

/-- The connection-string resolution and check at the top of `run_once`
(parser.py lines 344-349): config value, else environment fallback, else
`sys.exit(2)`. -/
def runOnceConnCheck (cfgConn envConn : Option String) : Except Nat Unit :=
  match pyOrStr cfgConn envConn with
  | none => .error 2
  | some s => if s == "" then .error 2 else .ok ()

/-- What `main` does after argument parsing. -/
inductive MainAction where
  | exitError (code : Nat)
  | runOnceAndReturn
  | loopForever

/-- The mode dispatch of `main` (parser.py lines 400-411): both flags is a
fatal configuration error with exit code 2; `--once` runs one cycle and
returns; otherwise (with `--loop` or with no flag) the infinite polling loop
runs. -/
def mainDispatch (once lp : Bool) : MainAction :=
  if once && lp then .exitError 2
  else if once then .runOnceAndReturn
  else .loopForever

/-! ### Invariants and concrete fixtures -/

/-- Every occurrence of "sig=" in `s` is immediately followed by "REDACTED"
(an occurrence is a prefix of a suffix). -/
def SigGood (s : List Char) : Prop :=
  ∀ t : List Char, t <:+ s → "sig=".data <+: t → "REDACTED".data <+: t.drop 4

/-- Referential soundness of the alerts table: every alert row references a
persisted event row. -/
def alertsValid (st : Store) : Prop :=
  ∀ a ∈ st.alerts, ∃ e ∈ st.events, e.id = a.event_id

/-- A `json.loads` behaviour that fails on every input (used only to
instantiate theorems at concrete inputs). -/
def stubLoads : String → Option JValue := fun _ => none

/-- The empty store (fresh database). -/
def emptyStore : Store := ⟨[], [], [], 0⟩

def c3Blob : BlobMeta := ⟨"insights-logs-storageread", "y=2025/m=10/b1.json", none⟩

def c3Env : PipelineEnv := ⟨[c3Blob], fun _ => .ok ""⟩

def c4Blob : BlobMeta := ⟨"insights-logs-auditevent", "y=2025/m=10/b4.json", some "0x1"⟩

def c4EnvOk : PipelineEnv := ⟨[c4Blob], fun _ => .ok ""⟩

def c4EnvBad : PipelineEnv := ⟨[c4Blob], fun _ => .error ()⟩

def c5Blob : BlobMeta := ⟨"insights-logs-activity", "y=2025/m=10/b5.json", some "0x2"⟩

def c5Store : Store :=
  ⟨[], [], [⟨"insights-logs-activity", "y=2025/m=10/b5.json", some "0x9"⟩], 7⟩

def c5Env : PipelineEnv := ⟨[c5Blob], fun _ => .ok "ignored"⟩

/-- A concrete normalized event fixture. -/
def c7Event : Event :=
  ⟨none, .str "StorageRead", none, some (.str "https://a/c/public/x"),
    some (.str "https://a/c/public/x"), some (.str "1.2.3.4"), none,
    some "200", none, none, "\x7b\x7d"⟩

def c7Rule : Rule := ⟨"empty-any", ⟨none, some ⟨some "request_uri", none, some []⟩⟩⟩

def c10Event : Event :=
  ⟨none, .str "AuditEvent", none, none, none, none, none, none, none, none, "\x7b\x7d"⟩

/-- A rule whose contains-clause is present but is the empty mapping. -/
def c10Rule : Rule := ⟨"no-field", ⟨none, some ⟨none, none, none⟩⟩⟩

def c10WitnessRule : Rule := ⟨"no-field-any", ⟨none, some ⟨none, none, some ["x"]⟩⟩⟩

/-! ### Theory of replaceAll -/

theorem replaceAll_nil (p : Char) (ps repl : List Char) :
    replaceAll p ps repl [] = [] := by
  rw [replaceAll]

theorem replaceAll_cons_pos {p : Char} {ps repl : List Char} {c : Char} {rest : List Char}
    (h : (p :: ps) <+: (c :: rest)) :
    replaceAll p ps repl (c :: rest) = repl ++ replaceAll p ps repl (rest.drop ps.length) := by
  rw [replaceAll]
  simp [h]

theorem replaceAll_cons_neg {p : Char} {ps repl : List Char} {c : Char} {rest : List Char}
    (h : ¬ (p :: ps) <+: (c :: rest)) :
    replaceAll p ps repl (c :: rest) = c :: replaceAll p ps repl rest := by
  rw [replaceAll]
  simp [h]

theorem infixAppendLeft {α : Type} {l u v : List α} (h : l <:+: v) : l <:+: u ++ v := by
  obtain ⟨x, y, rfl⟩ := h
  exact ⟨u ++ x, y, by simp⟩

theorem suffixAppendCases {α : Type} {t u v : List α} (h : t <:+ u ++ v) :
    t <:+ v ∨ ∃ u', u' <:+ u ∧ t = u' ++ v := by
  induction u with
  | nil => exact Or.inl (by simpa using h)
  | cons a u ih =>
    rcases List.suffix_cons_iff.mp h with h' | h'
    · exact Or.inr ⟨a :: u, List.suffix_refl _, by simpa using h'⟩
    · rcases ih h' with h'' | ⟨u', hu', rfl⟩
      · exact Or.inl h''
      · exact Or.inr ⟨u', hu'.trans (List.suffix_cons a u), rfl⟩

/-- Characters on which no match of the pattern can start pass through
`replaceAll` unchanged. -/
theorem replaceAll_skip {p : Char} {ps repl u v : List Char} (hu : p ∉ u) :
    replaceAll p ps repl (u ++ v) = u ++ replaceAll p ps repl v := by
  induction u with
  | nil => simp
  | cons a u ih =>
    have hpa : p ≠ a := fun h => hu (h ▸ List.mem_cons_self a u)
    have hne : ¬ (p :: ps) <+: (a :: (u ++ v)) := fun h =>
      hpa (List.cons_prefix_cons.mp h).1
    rw [List.cons_append, replaceAll_cons_neg hne,
      ih (fun h => hu (List.mem_cons_of_mem a h))]
    simp

/-- A prefix free of the pattern's first character is reflected back from the
output of `replaceAll` to its input, provided the replacement starts with
that character. -/
theorem replaceAll_prefix_reflect {p : Char} {ps rt : List Char} {u s : List Char}
    (hpu : p ∉ u) (h : u <+: replaceAll p ps (p :: rt) s) : u <+: s := by
  induction s using replaceAll.induct p ps (p :: rt) generalizing u with
  | case1 =>
    rw [replaceAll_nil] at h
    exact h
  | case2 c rest hp ih =>
    rw [replaceAll_cons_pos hp] at h
    match u, h with
    | [], _ => exact List.nil_prefix
    | x :: u', h =>
      rw [List.cons_append] at h
      have := (List.cons_prefix_cons.mp h).1
      exact absurd (this ▸ List.mem_cons_self x u') hpu
  | case3 c rest hn ih =>
    rw [replaceAll_cons_neg hn] at h
    match u, h with
    | [], _ => exact List.nil_prefix
    | x :: u', h =>
      obtain ⟨rfl, h'⟩ := List.cons_prefix_cons.mp h
      have hpu' : p ∉ u' := fun hm => hpu (List.mem_cons_of_mem _ hm)
      exact List.cons_prefix_cons.mpr ⟨rfl, ih hpu' h'⟩

/-- If a short proper prefix of the string is followed by an occurrence head
`o`, a whole-string pattern match puts `o` among the pattern's later
characters. -/
theorem head_mem_of_short_pre {p o : Char} {ps pre occt post s : List Char}
    (hp : (p :: ps) <+: s) (hs : s = pre ++ (o :: occt) ++ post)
    (hne : pre ≠ []) (hlt : pre.length < (p :: ps).length) : o ∈ ps := by
  have hpre : pre <+: s := by
    rw [hs, List.append_assoc]
    exact List.prefix_append pre _
  obtain ⟨pat2, hpat⟩ := List.prefix_of_prefix_length_le hpre hp (Nat.le_of_lt hlt)
  have hlen2 : 0 < pat2.length := by
    have := congrArg List.length hpat
    simp only [List.length_append, List.length_cons] at this ⊢
    simp only [List.length_cons] at hlt
    omega
  rcases pat2 with _ | ⟨q, pat3⟩
  · simp at hlen2
  have hq : q = o := by
    have h2 : pre ++ (q :: pat3) <+: pre ++ ((o :: occt) ++ post) := by
      rw [hpat, ← List.append_assoc, ← hs]
      exact hp
    have h3 := (List.prefix_append_right_inj pre).mp h2
    rw [List.cons_append] at h3
    exact (List.cons_prefix_cons.mp h3).1
  rcases pre with _ | ⟨b, pre2⟩
  · exact absurd rfl hne
  · have hcons : p :: ps = b :: (pre2 ++ q :: pat3) := by
      rw [← hpat]
      simp
    have hps : ps = pre2 ++ q :: pat3 := by
      injection hcons
    rw [hps]
    subst hq
    simp

/-- Replacing a pattern whose first character appears neither later in the
pattern nor in `tl` rewrites an occurrence of pattern-plus-`tl` into
replacement-plus-`tl`. -/
theorem replaceAll_creates {p : Char} {ps repl tl s : List Char}
    (hps : p ∉ ps) (htl : p ∉ tl)
    (h : ((p :: ps) ++ tl) <:+: s) :
    (repl ++ tl) <:+: replaceAll p ps repl s := by
  induction s using replaceAll.induct p ps repl with
  | case1 =>
    obtain ⟨pre, post, hs⟩ := h
    have := congrArg List.length hs
    simp at this
  | case2 c rest hp ih =>
    obtain ⟨pre, post, hs⟩ := h
    rw [replaceAll_cons_pos hp]
    rcases pre with _ | ⟨a, pre'⟩
    · simp only [List.nil_append, List.cons_append] at hs
      have hc : p = c := by injection hs
      have hrest : ps ++ (tl ++ post) = rest := by
        have : ps ++ tl ++ post = rest := by injection hs
        rw [← this, List.append_assoc]
      have hdrop : rest.drop ps.length = tl ++ post := by
        rw [← hrest]
        exact List.drop_left _ _
      rw [hdrop, replaceAll_skip htl]
      exact ⟨[], replaceAll p ps repl post, by simp⟩
    · by_cases hlen : (a :: pre').length < (p :: ps).length
      · have hs' : c :: rest = (a :: pre') ++ (p :: (ps ++ tl)) ++ post := by
          rw [← hs]
          simp
        exact absurd (head_mem_of_short_pre hp hs' (by simp) hlen) hps
      · push_neg at hlen
        have hpre_s : (a :: pre') <+: (c :: rest) := by
          rw [← hs, List.append_assoc]
          exact List.prefix_append _ _
        obtain ⟨pre2, hpre2⟩ := List.prefix_of_prefix_length_le hp hpre_s hlen
        have hrest : rest = ps ++ (pre2 ++ ((p :: ps) ++ tl) ++ post) := by
          have hh : (p :: ps) ++ (pre2 ++ ((p :: ps) ++ tl) ++ post) = c :: rest := by
            rw [← hs, ← hpre2]
            simp
          simp only [List.cons_append] at hh
          have := (List.cons.injEq _ _ _ _).mp hh
          rw [← this.2]
          simp [List.append_assoc]
        have hdrop : rest.drop ps.length = pre2 ++ ((p :: ps) ++ tl) ++ post := by
          rw [hrest]
          exact List.drop_left _ _
        have hocc : ((p :: ps) ++ tl) <:+: rest.drop ps.length := by
          rw [hdrop]
          exact ⟨pre2, post, rfl⟩
        exact infixAppendLeft (ih hocc)
  | case3 c rest hn ih =>
    obtain ⟨pre, post, hs⟩ := h
    rcases pre with _ | ⟨a, pre'⟩
    · exfalso
      simp only [List.nil_append, List.cons_append] at hs
      have hc : p = c := by injection hs
      have hrest : ps ++ tl ++ post = rest := by injection hs
      exact hn (by
        subst hc
        exact List.cons_prefix_cons.mpr ⟨rfl, by
          rw [← hrest, List.append_assoc]
          exact List.prefix_append _ _⟩)
    · simp only [List.cons_append] at hs
      have hac : a = c := by injection hs
      have hrest : pre' ++ ((p :: ps) ++ tl) ++ post = rest := by injection hs
      rw [replaceAll_cons_neg hn]
      exact List.infix_cons (ih ⟨pre', post, hrest⟩)

/-- An occurrence that the pattern cannot overlap survives `replaceAll`:
the pattern's first character does not occur after the occurrence's head,
the occurrence's head does not occur later in the pattern, the pattern is
not a prefix of the occurrence, and the pattern is no longer than the
occurrence. -/
theorem replaceAll_preserves {p : Char} {ps repl : List Char} {o : Char}
    {ot s : List Char}
    (h1 : p ∉ ot) (h2 : o ∉ ps) (h3 : ¬ ((p :: ps) <+: (o :: ot)))
    (hlen : ps.length ≤ ot.length)
    (h : (o :: ot) <:+: s) : (o :: ot) <:+: replaceAll p ps repl s := by
  induction s using replaceAll.induct p ps repl with
  | case1 =>
    obtain ⟨pre, post, hs⟩ := h
    have := congrArg List.length hs
    simp at this
  | case2 c rest hp ih =>
    obtain ⟨pre, post, hs⟩ := h
    rw [replaceAll_cons_pos hp]
    rcases pre with _ | ⟨a, pre'⟩
    · exfalso
      apply h3
      have hoccs : (o :: ot) <+: (c :: rest) := by
        rw [← hs]
        simp only [List.nil_append]
        exact List.prefix_append _ _
      exact List.prefix_of_prefix_length_le hp hoccs (by simp [hlen])
    · by_cases hlt : (a :: pre').length < (p :: ps).length
      · exact absurd (head_mem_of_short_pre hp hs.symm (by simp) hlt) h2
      · push_neg at hlt
        have hpre_s : (a :: pre') <+: (c :: rest) := by
          rw [← hs, List.append_assoc]
          exact List.prefix_append _ _
        obtain ⟨pre2, hpre2⟩ := List.prefix_of_prefix_length_le hp hpre_s hlt
        have hrest : rest = ps ++ (pre2 ++ (o :: ot) ++ post) := by
          have hh : (p :: ps) ++ (pre2 ++ (o :: ot) ++ post) = c :: rest := by
            rw [← hs, ← hpre2]
            simp
          simp only [List.cons_append] at hh
          have := (List.cons.injEq _ _ _ _).mp hh
          rw [← this.2]
        have hdrop : rest.drop ps.length = pre2 ++ (o :: ot) ++ post := by
          rw [hrest]
          exact List.drop_left _ _
        have hocc : (o :: ot) <:+: rest.drop ps.length := by
          rw [hdrop]
          exact ⟨pre2, post, rfl⟩
        exact infixAppendLeft (ih hocc)
  | case3 c rest hn ih =>
    obtain ⟨pre, post, hs⟩ := h
    rcases pre with _ | ⟨a, pre'⟩
    · simp only [List.nil_append, List.cons_append] at hs
      have hc : o = c := by injection hs
      have hrest : ot ++ post = rest := by injection hs
      subst hc
      rw [replaceAll_cons_neg hn, ← hrest, replaceAll_skip h1]
      exact ⟨[], replaceAll p ps repl post, by simp⟩
    · simp only [List.cons_append] at hs
      have hrest : pre' ++ (o :: ot) ++ post = rest := by injection hs
      rw [replaceAll_cons_neg hn]
      exact List.infix_cons (ih ⟨pre', post, hrest⟩)

/-! ### The redaction invariant: every "sig=" is followed by "REDACTED" -/

theorem sigGood_suffix {s t : List Char} (h : t <:+ s) (hg : SigGood s) : SigGood t :=
  fun u hu hp => hg u (hu.trans h) hp

/-- The first replacement pass (key "sig") establishes the invariant on any
input. -/
theorem sigGood_after_sig_pass (s : List Char) :
    SigGood (replaceAll 's' "ig=".data "sig=REDACTED".data s) := by
  induction s using replaceAll.induct 's' "ig=".data "sig=REDACTED".data with
  | case1 =>
    rw [replaceAll_nil]
    intro t ht hp
    rw [List.suffix_nil.mp ht] at hp
    have := congrArg List.length (List.prefix_nil.mp hp)
    simp at this
  | case2 c rest hp ih =>
    rw [replaceAll_cons_pos hp]
    intro t ht hpre
    rcases suffixAppendCases ht with ht' | ⟨u', hu', rfl⟩
    · exact ih t ht' hpre
    · have hrepl : "sig=REDACTED".data = 's' :: "ig=REDACTED".data := rfl
      rw [hrepl] at hu'
      rcases List.suffix_cons_iff.mp hu' with rfl | hu2
      · show "REDACTED".data <+: List.drop 4
          (("sig=".data ++ ("REDACTED".data ++
            replaceAll 's' "ig=".data "sig=REDACTED".data (rest.drop "ig=".data.length))))
        rw [List.drop_left' (by decide)]
        exact List.prefix_append _ _
      · rcases u' with _ | ⟨x, u2⟩
        · exact ih _ (List.suffix_refl _) hpre
        · exfalso
          have hx : 's' = x := (List.cons_prefix_cons.mp hpre).1
          have hmem : x ∈ "ig=REDACTED".data :=
            hu2.sublist.subset (List.mem_cons_self x u2)
          rw [← hx] at hmem
          exact absurd hmem (by decide)
  | case3 c rest hn ih =>
    rw [replaceAll_cons_neg hn]
    intro t ht hpre
    rcases List.suffix_cons_iff.mp ht with rfl | ht'
    · exfalso
      obtain ⟨hc, hig⟩ := List.cons_prefix_cons.mp hpre
      have h2 : "ig=".data <+: rest :=
        replaceAll_prefix_reflect (by decide) hig
      exact hn (List.cons_prefix_cons.mpr ⟨hc, h2⟩)
    · exact ih t ht' hpre

/-- Replacement passes for the later SAS keys preserve the invariant: the
key starts with 's', its second character is not 'i', and 's' occurs nowhere
later in the pattern or the replacement. -/
theorem sigGood_preserved {d : Char} {ps2 s : List Char}
    (hd : d ≠ 'i') (hs2 : 's' ∉ (d :: (ps2 ++ "REDACTED".data))) :
    SigGood s →
    SigGood (replaceAll 's' (d :: ps2) ('s' :: (d :: (ps2 ++ "REDACTED".data))) s) := by
  induction s using replaceAll.induct 's' (d :: ps2) ('s' :: (d :: (ps2 ++ "REDACTED".data))) with
  | case1 =>
    intro _
    rw [replaceAll_nil]
    intro t ht hp
    rw [List.suffix_nil.mp ht] at hp
    have := congrArg List.length (List.prefix_nil.mp hp)
    simp at this
  | case2 c rest hp ih =>
    intro hg
    rw [replaceAll_cons_pos hp]
    have hR := ih (sigGood_suffix ((List.drop_suffix _ _).trans (List.suffix_cons c rest)) hg)
    intro t ht hpre
    rcases suffixAppendCases ht with ht' | ⟨u', hu', rfl⟩
    · exact hR t ht' hpre
    · rcases List.suffix_cons_iff.mp hu' with rfl | hu2
      · exfalso
        obtain ⟨-, hpre2⟩ := List.cons_prefix_cons.mp hpre
        have : ('i' : Char) = d := (List.cons_prefix_cons.mp hpre2).1
        exact hd this.symm
      · rcases u' with _ | ⟨x, u2⟩
        · exact hR _ (List.suffix_refl _) hpre
        · exfalso
          have hx : 's' = x := (List.cons_prefix_cons.mp hpre).1
          have hmem : x ∈ d :: (ps2 ++ "REDACTED".data) :=
            hu2.sublist.subset (List.mem_cons_self x u2)
          rw [← hx] at hmem
          exact absurd hmem hs2
  | case3 c rest hn ih =>
    intro hg
    rw [replaceAll_cons_neg hn]
    have hR := ih (sigGood_suffix (List.suffix_cons c rest) hg)
    intro t ht hpre
    rcases List.suffix_cons_iff.mp ht with rfl | ht'
    · obtain ⟨hc, hig⟩ := List.cons_prefix_cons.mp hpre
      have h2 : "ig=".data <+: rest :=
        replaceAll_prefix_reflect (by decide) hig
      have hsig : "sig=".data <+: c :: rest :=
        List.cons_prefix_cons.mpr ⟨hc, h2⟩
      obtain ⟨rest2, hrest2⟩ := h2
      have hgt := hg (c :: rest) (List.suffix_refl _) hsig
      rw [← hrest2] at hgt
      have hgt2 : "REDACTED".data <+: rest2 := by
        have hdrop : List.drop 4 (c :: ("ig=".data ++ rest2)) = rest2 := rfl
        rw [hdrop] at hgt
        exact hgt
      obtain ⟨rest3, hrest3⟩ := hgt2
      have hrest : rest = ("ig=".data ++ "REDACTED".data) ++ rest3 := by
        rw [← hrest2, ← hrest3]
        simp
      show "REDACTED".data <+: List.drop 4
        (c :: replaceAll 's' (d :: ps2) ('s' :: (d :: (ps2 ++ "REDACTED".data))) rest)
      rw [hrest, replaceAll_skip (by decide)]
      have hdrop2 : List.drop 4
          (c :: (("ig=".data ++ "REDACTED".data) ++
            replaceAll 's' (d :: ps2) ('s' :: (d :: (ps2 ++ "REDACTED".data))) rest3))
          = "REDACTED".data ++
            replaceAll 's' (d :: ps2) ('s' :: (d :: (ps2 ++ "REDACTED".data))) rest3 := rfl
      rw [hdrop2]
      exact List.prefix_append _ _
    · exact hR t ht' hpre

/-! ### Redaction facts about the full eight-key pass -/

theorem redactChars_eq (u : List Char) :
    redactChars u =
      replaceAll 's' "ktid=".data "sktid=REDACTED".data
        (replaceAll 's' "koid=".data "skoid=REDACTED".data
          (replaceAll 's' "v=".data "sv=REDACTED".data
            (replaceAll 's' "pr=".data "spr=REDACTED".data
              (replaceAll 's' "p=".data "sp=REDACTED".data
                (replaceAll 's' "t=".data "st=REDACTED".data
                  (replaceAll 's' "e=".data "se=REDACTED".data
                    (replaceAll 's' "ig=".data "sig=REDACTED".data u))))))) := rfl

/-- A request URI containing "sig=ABC123" is redacted to one containing
"sig=REDACTEDABC123". -/
theorem redactChars_yields {u : List Char} (h : "sig=ABC123".data <:+: u) :
    "sig=REDACTEDABC123".data <:+: redactChars u := by
  rw [redactChars_eq]
  have h1 : ("sig=REDACTED".data ++ "ABC123".data) <:+:
      replaceAll 's' "ig=".data "sig=REDACTED".data u :=
    replaceAll_creates (by decide) (by decide) h
  have h2 : ('s' :: "ig=REDACTEDABC123".data) <:+:
      replaceAll 's' "e=".data "se=REDACTED".data
        (replaceAll 's' "ig=".data "sig=REDACTED".data u) :=
    replaceAll_preserves (by decide) (by decide) (by decide) (by decide) h1
  have h3 : ('s' :: "ig=REDACTEDABC123".data) <:+:
      replaceAll 's' "t=".data "st=REDACTED".data
        (replaceAll 's' "e=".data "se=REDACTED".data
          (replaceAll 's' "ig=".data "sig=REDACTED".data u)) :=
    replaceAll_preserves (by decide) (by decide) (by decide) (by decide) h2
  have h4 : ('s' :: "ig=REDACTEDABC123".data) <:+:
      replaceAll 's' "p=".data "sp=REDACTED".data
        (replaceAll 's' "t=".data "st=REDACTED".data
          (replaceAll 's' "e=".data "se=REDACTED".data
            (replaceAll 's' "ig=".data "sig=REDACTED".data u))) :=
    replaceAll_preserves (by decide) (by decide) (by decide) (by decide) h3
  have h5 : ('s' :: "ig=REDACTEDABC123".data) <:+:
      replaceAll 's' "pr=".data "spr=REDACTED".data
        (replaceAll 's' "p=".data "sp=REDACTED".data
          (replaceAll 's' "t=".data "st=REDACTED".data
            (replaceAll 's' "e=".data "se=REDACTED".data
              (replaceAll 's' "ig=".data "sig=REDACTED".data u)))) :=
    replaceAll_preserves (by decide) (by decide) (by decide) (by decide) h4
  have h6 : ('s' :: "ig=REDACTEDABC123".data) <:+:
      replaceAll 's' "v=".data "sv=REDACTED".data
        (replaceAll 's' "pr=".data "spr=REDACTED".data
          (replaceAll 's' "p=".data "sp=REDACTED".data
            (replaceAll 's' "t=".data "st=REDACTED".data
              (replaceAll 's' "e=".data "se=REDACTED".data
                (replaceAll 's' "ig=".data "sig=REDACTED".data u))))) :=
    replaceAll_preserves (by decide) (by decide) (by decide) (by decide) h5
  have h7 : ('s' :: "ig=REDACTEDABC123".data) <:+:
      replaceAll 's' "koid=".data "skoid=REDACTED".data
        (replaceAll 's' "v=".data "sv=REDACTED".data
          (replaceAll 's' "pr=".data "spr=REDACTED".data
            (replaceAll 's' "p=".data "sp=REDACTED".data
              (replaceAll 's' "t=".data "st=REDACTED".data
                (replaceAll 's' "e=".data "se=REDACTED".data
                  (replaceAll 's' "ig=".data "sig=REDACTED".data u)))))) :=
    replaceAll_preserves (by decide) (by decide) (by decide) (by decide) h6
  exact replaceAll_preserves (by decide) (by decide) (by decide) (by decide) h7

/-- The invariant forbids any remaining occurrence of "sig=ABC123". -/
theorem sigGood_no_plain {s : List Char} (hg : SigGood s) :
    ¬ ("sig=ABC123".data <:+: s) := by
  rintro ⟨pre, post, hs⟩
  have ht : ("sig=ABC123".data ++ post) <:+ s := by
    rw [← hs, List.append_assoc]
    exact List.suffix_append _ _
  have hpre : "sig=".data <+: ("sig=ABC123".data ++ post) :=
    show "sig=".data <+: "sig=".data ++ ("ABC123".data ++ post) from
      List.prefix_append _ _
  have h4 := hg _ ht hpre
  have h5 : ('R' :: "EDACTED".data) <+: ('A' :: ("BC123".data ++ post)) := h4
  exact absurd (List.cons_prefix_cons.mp h5).1 (by decide)

/-- After all eight passes the invariant holds, for any input. -/
theorem redactChars_sigGood (u : List Char) : SigGood (redactChars u) := by
  rw [redactChars_eq]
  have g1 := sigGood_after_sig_pass u
  have g2 : SigGood (replaceAll 's' "e=".data "se=REDACTED".data
      (replaceAll 's' "ig=".data "sig=REDACTED".data u)) :=
    sigGood_preserved (by decide) (by decide) g1
  have g3 : SigGood (replaceAll 's' "t=".data "st=REDACTED".data
      (replaceAll 's' "e=".data "se=REDACTED".data
        (replaceAll 's' "ig=".data "sig=REDACTED".data u))) :=
    sigGood_preserved (by decide) (by decide) g2
  have g4 : SigGood (replaceAll 's' "p=".data "sp=REDACTED".data
      (replaceAll 's' "t=".data "st=REDACTED".data
        (replaceAll 's' "e=".data "se=REDACTED".data
          (replaceAll 's' "ig=".data "sig=REDACTED".data u)))) :=
    sigGood_preserved (by decide) (by decide) g3
  have g5 : SigGood (replaceAll 's' "pr=".data "spr=REDACTED".data
      (replaceAll 's' "p=".data "sp=REDACTED".data
        (replaceAll 's' "t=".data "st=REDACTED".data
          (replaceAll 's' "e=".data "se=REDACTED".data
            (replaceAll 's' "ig=".data "sig=REDACTED".data u))))) :=
    sigGood_preserved (by decide) (by decide) g4
  have g6 : SigGood (replaceAll 's' "v=".data "sv=REDACTED".data
      (replaceAll 's' "pr=".data "spr=REDACTED".data
        (replaceAll 's' "p=".data "sp=REDACTED".data
          (replaceAll 's' "t=".data "st=REDACTED".data
            (replaceAll 's' "e=".data "se=REDACTED".data
              (replaceAll 's' "ig=".data "sig=REDACTED".data u)))))) :=
    sigGood_preserved (by decide) (by decide) g5
  have g7 : SigGood (replaceAll 's' "koid=".data "skoid=REDACTED".data
      (replaceAll 's' "v=".data "sv=REDACTED".data
        (replaceAll 's' "pr=".data "spr=REDACTED".data
          (replaceAll 's' "p=".data "sp=REDACTED".data
            (replaceAll 's' "t=".data "st=REDACTED".data
              (replaceAll 's' "e=".data "se=REDACTED".data
                (replaceAll 's' "ig=".data "sig=REDACTED".data u))))))) :=
    sigGood_preserved (by decide) (by decide) g6
  exact sigGood_preserved (by decide) (by decide) g7

/-- No input is redacted to a string still containing "sig=ABC123". -/
theorem redactChars_no_plain (u : List Char) :
    ¬ ("sig=ABC123".data <:+: redactChars u) :=
  sigGood_no_plain (redactChars_sigGood u)

/-! ### Store lemmas for the run_once cycle -/

theorem blobOps_of_processed {rules : List Rule} {loads : String → Option JValue}
    {env : PipelineEnv} {st : Store} {b : BlobMeta}
    (h : st.blob_processed b.container b.blob_name b.etag = true) :
    blobOps rules loads env st b = [] := by
  unfold blobOps
  rw [h]
  rfl

theorem processBlob_of_processed {rules : List Rule} {loads : String → Option JValue}
    {env : PipelineEnv} {st : Store} {b : BlobMeta}
    (h : st.blob_processed b.container b.blob_name b.etag = true) :
    processBlob rules loads env st b = st := by
  unfold processBlob
  rw [blobOps_of_processed h]
  rfl

theorem foldl_processBlob_skip {rules : List Rule} {loads : String → Option JValue}
    {env : PipelineEnv} (bs : List BlobMeta) (st : Store)
    (h : ∀ b ∈ bs, st.blob_processed b.container b.blob_name b.etag = true) :
    bs.foldl (processBlob rules loads env) st = st := by
  induction bs with
  | nil => rfl
  | cons b bs ih =>
    rw [List.foldl_cons, processBlob_of_processed (h b (List.mem_cons_self b bs))]
    exact ih (fun b' hb' => h b' (List.mem_cons_of_mem _ hb'))

theorem mark_blob_processed (st : Store) (c n : String) (e e' : Option String) :
    (st.mark_blob c n e).blob_processed c n e' = true := by
  unfold Store.mark_blob Store.blob_processed
  simp

/-- No operation of the record loop is a marker commit. -/
theorem recsOps_no_mark (rules : List Rule) (c n : String) (nid : Nat)
    (recs : List JObj) : ∀ op ∈ recsOps rules c n nid recs, op.isMark = false := by
  induction recs generalizing nid with
  | nil => intro op hop; cases hop
  | cons rec rest ih =>
    intro op hop
    unfold recsOps at hop
    cases hnorm : normalize_event c rec with
    | error e => rw [hnorm] at hop; cases hop
    | ok ev =>
      rw [hnorm] at hop
      rcases List.mem_cons.mp hop with rfl | hop2
      · rfl
      · rcases List.mem_append.mp hop2 with hmem | hmem
        · obtain ⟨rule, -, rfl⟩ := List.mem_map.mp hmem
          rfl
        · exact ih _ op hmem

/-- Applying a block of alert appends only extends the alerts table. -/
theorem applyOps_addAlerts (st : Store) (names : List String) (eid : Nat) :
    applyOps st (names.map (fun r => Op.addAlert r eid)) =
      { st with alerts := st.alerts ++ names.map (fun r => ⟨r, eid⟩) } := by
  induction names generalizing st with
  | nil => simp [applyOps]
  | cons a names ih =>
    simp only [List.map_cons]
    show applyOps (applyOp st (Op.addAlert a eid)) _ = _
    rw [ih]
    simp [applyOp]

/-- The record loop preserves referential soundness of the alerts table:
each alert appended references the event appended just before it. -/
theorem alertsValid_recsOps (rules : List Rule) (c n : String) (recs : List JObj)
    (st : Store) (hv : alertsValid st) :
    alertsValid (applyOps st (recsOps rules c n st.nextId recs)) := by
  induction recs generalizing st with
  | nil => exact hv
  | cons rec rest ih =>
    cases hnorm : normalize_event c rec with
    | error e =>
      have hrec : recsOps rules c n st.nextId (rec :: rest) = [] := by
        simp only [recsOps]
        rw [hnorm]
      rw [hrec]
      exact hv
    | ok ev =>
      have hrec : recsOps rules c n st.nextId (rec :: rest)
          = Op.addEvent c n ev :: (alertOpsFor rules ev st.nextId
            ++ recsOps rules c n (st.nextId + 1) rest) := by
        simp only [recsOps]
        rw [hnorm]
        rfl
      rw [hrec]
      show alertsValid (applyOps (applyOp st (Op.addEvent c n ev))
        (alertOpsFor rules ev st.nextId ++ recsOps rules c n (st.nextId + 1) rest))
      set st1 : Store :=
        { st with events := st.events ++ [⟨st.nextId, ev, c, n⟩],
                  nextId := st.nextId + 1 } with hst1
      have happ : applyOp st (Op.addEvent c n ev) = st1 := rfl
      rw [happ]
      unfold applyOps
      rw [List.foldl_append]
      have halert : alertOpsFor rules ev st.nextId =
          ((rules.filter (fun rule => event_matches rule ev)).map Rule.name).map
            (fun r => Op.addAlert r st.nextId) := by
        unfold alertOpsFor
        rw [List.map_map]
        rfl
      set newAlerts : List AlertRow :=
        ((rules.filter (fun rule => event_matches rule ev)).map Rule.name).map
          (fun r => ⟨r, st.nextId⟩) with hna
      have hfold : List.foldl applyOp st1 (alertOpsFor rules ev st.nextId) =
          { st1 with alerts := st1.alerts ++ newAlerts } := by
        rw [halert]
        exact applyOps_addAlerts st1 _ _
      rw [hfold]
      set st2 : Store := { st1 with alerts := st1.alerts ++ newAlerts } with hst2
      have hv2 : alertsValid st2 := by
        intro a ha
        rcases List.mem_append.mp ha with hold | hnew
        · obtain ⟨e, he, heid⟩ := hv a hold
          exact ⟨e, List.mem_append_left _ he, heid⟩
        · obtain ⟨r, -, rfl⟩ := List.mem_map.mp hnew
          refine ⟨⟨st.nextId, ev, c, n⟩, ?_, rfl⟩
          exact List.mem_append_right _ (List.mem_singleton.mpr rfl)
      have hnid2 : st.nextId + 1 = st2.nextId := rfl
      rw [hnid2]
      exact ih st2 hv2

/-! ### Equivalence of parse_blob_bytes with the documented policy -/

theorem ndjson_eq (loads : String → Option JValue) (body : List Char) :
    ndjsonRecords loads body = specNdjson loads body := by
  unfold ndjsonRecords specNdjson
  congr 1
  funext line
  by_cases he : (pyStrip line).isEmpty
  · simp [he]
  · simp only [he, Bool.false_eq_true, if_false]
    cases hl : loads ⟨pyStrip line⟩ with
    | none => rfl
    | some v => cases v <;> rfl

theorem parse_blob_bytes_eq_policy (loads : String → Option JValue) (b : List Char) :
    parse_blob_bytes loads b = parseSpecPolicy loads b := by
  unfold parse_blob_bytes parseSpecPolicy
  by_cases he : (pyStrip b).isEmpty
  · simp [he]
  · simp only [he, Bool.false_eq_true, if_false]
    cases hl : loads ⟨pyStrip b⟩ with
    | none => exact ndjson_eq loads (pyStrip b)
    | some v =>
      cases v with
      | obj fields => rfl
      | arr recs => rfl
      | null => exact ndjson_eq loads (pyStrip b)
      | bool bb => exact ndjson_eq loads (pyStrip b)
      | num z => exact ndjson_eq loads (pyStrip b)
      | str s2 => exact ndjson_eq loads (pyStrip b)

/-! ### Further store helpers -/

theorem applyOps_append (st : Store) (l1 l2 : List Op) :
    applyOps st (l1 ++ l2) = applyOps (applyOps st l1) l2 := by
  unfold applyOps
  exact List.foldl_append _ _ _ _

/-- On a successful download of an unprocessed blob, redact_sas-normalised
events and alerts are followed by exactly one marker commit. -/
theorem blobOps_of_download {rules : List Rule} {loads : String → Option JValue}
    {env : PipelineEnv} {st : Store} {b : BlobMeta} {raw : String}
    (hproc : st.blob_processed b.container b.blob_name b.etag = false)
    (hdl : env.download b = Except.ok raw) :
    blobOps rules loads env st b
      = recsOps rules b.container b.blob_name st.nextId (parse_blob_bytes loads raw.data)
        ++ [Op.markBlob b.container b.blob_name b.etag] := by
  unfold blobOps
  rw [hproc, hdl]
  rfl

theorem blobOps_of_download_failed {rules : List Rule} {loads : String → Option JValue}
    {env : PipelineEnv} {st : Store} {b : BlobMeta} {e : Unit}
    (hproc : st.blob_processed b.container b.blob_name b.etag = false)
    (hdl : env.download b = Except.error e) :
    blobOps rules loads env st b = [] := by
  unfold blobOps
  rw [hproc, hdl]
  rfl

/-! ### Claim theorems -/

/-- On any URI containing "sig=ABC123" the falsy guard of redact_sas does not
fire, and the redaction is the character-level eight-key pass. -/
theorem redact_sas_some_of_contains {uri : String}
    (h : "sig=ABC123".data <:+: uri.data) :
    redact_sas (some uri) = some ⟨redactChars uri.data⟩ := by
  have hne : (uri == "") = false := by
    cases heq : uri == "" with
    | false => rfl
    | true =>
      exfalso
      have huri : uri = "" := eq_of_beq heq
      subst huri
      obtain ⟨pre, post, hs⟩ := h
      have := congrArg List.length hs
      simp at this
  show (if (uri == "") = true then some uri
    else some (⟨redactChars uri.data⟩ : String)) = some ⟨redactChars uri.data⟩
  rw [hne]
  rfl

/-- Claim C1, counterexample: the request URI "https://acct/c/b?sig=ABC123"
contains the secret query-parameter value "ABC123" (as "sig=ABC123"), and
the redacted URI produced by redact_sas still contains that original secret
token value. -/
theorem C1_counterexample :
    "sig=ABC123".data <:+: "https://acct/c/b?sig=ABC123".data ∧
    "ABC123".data <:+: redactChars "https://acct/c/b?sig=ABC123".data :=
  ⟨by decide, List.IsInfix.trans (by decide) (redactChars_yields (by decide))⟩

/-- Claim C1, amended: for every request URI containing the secret pair
"sig=ABC123", the redacted URI produced by redact_sas no longer contains the
pair "sig=ABC123" itself, but it does still contain the raw secret value
"ABC123" (left attached after the REDACTED marker). -/
theorem C1_redaction_amended {uri : String}
    (h : "sig=ABC123".data <:+: uri.data) :
    ∃ out : String, redact_sas (some uri) = some out ∧
      "ABC123".data <:+: out.data ∧ ¬ ("sig=ABC123".data <:+: out.data) := by
  refine ⟨⟨redactChars uri.data⟩, redact_sas_some_of_contains h, ?_, ?_⟩
  · exact List.IsInfix.trans (by decide) (redactChars_yields h)
  · exact redactChars_no_plain uri.data

/-- Witness for C1_redaction_amended at a concrete URI. -/
theorem C1_witness :
    "sig=ABC123".data <:+: "https://w.example/x?sig=ABC123&sp=r".data ∧
    ∃ out : String,
      redact_sas (some "https://w.example/x?sig=ABC123&sp=r") = some out ∧
      "ABC123".data <:+: out.data ∧ ¬ ("sig=ABC123".data <:+: out.data) :=
  ⟨by decide, C1_redaction_amended (by decide)⟩

/-- Claim C8: every request URI containing "sig=ABC123" is redacted by
redact_sas to a URI containing "sig=REDACTEDABC123" and never containing the
unredacted substring "sig=ABC123". -/
theorem C8_redaction_marker {uri : String}
    (h : "sig=ABC123".data <:+: uri.data) :
    ∃ out : String, redact_sas (some uri) = some out ∧
      "sig=REDACTEDABC123".data <:+: out.data ∧
      ¬ ("sig=ABC123".data <:+: out.data) := by
  refine ⟨⟨redactChars uri.data⟩, redact_sas_some_of_contains h, ?_, ?_⟩
  · exact redactChars_yields h
  · exact redactChars_no_plain uri.data

/-- Witness for C8_redaction_marker at a concrete URI. -/
theorem C8_witness :
    "sig=ABC123".data <:+: "https://a.blob.example/c?sig=ABC123&se=2".data ∧
    ∃ out : String,
      redact_sas (some "https://a.blob.example/c?sig=ABC123&se=2") = some out ∧
      "sig=REDACTEDABC123".data <:+: out.data ∧
      ¬ ("sig=ABC123".data <:+: out.data) :=
  ⟨by decide, C8_redaction_marker (by decide)⟩

/-- Claim C2, counterexample: when neither --once nor --loop is given, main
does not take the one-shot path. -/
theorem C2_counterexample :
    mainDispatch false false ≠ MainAction.runOnceAndReturn :=
  fun h => nomatch h

/-- Claim C2, amended: when neither flag is given, main falls through to the
continuous polling loop, the same mode selected by --loop alone; it is not
the documented one-shot default. -/
theorem C2_default_mode_amended :
    mainDispatch false false = MainAction.loopForever ∧
    mainDispatch false true = MainAction.loopForever :=
  ⟨rfl, rfl⟩

/-- Claim C9, counterexample: there are no two distinct non-zero exit codes;
the missing-connection-string failure and the both-flags failure exit with
the same code. -/
theorem C9_counterexample :
    ¬ (∃ a b : Nat, runOnceConnCheck none none = Except.error a ∧
        mainDispatch true true = MainAction.exitError b ∧
        a ≠ 0 ∧ b ≠ 0 ∧ a ≠ b) := by
  rintro ⟨a, b, ha, hb, -, -, hab⟩
  have ha2 : (Except.error 2 : Except Nat Unit) = Except.error a := by
    rw [← ha]
    rfl
  have hb2 : MainAction.exitError 2 = MainAction.exitError b := by
    rw [← hb]
    rfl
  have ha3 : (2 : Nat) = a := by
    injection ha2
  have hb3 : (2 : Nat) = b := by
    injection hb2
  exact hab (ha3 ▸ hb3 ▸ rfl)

/-- Claim C9, amended: both startup fatal errors are non-zero exits, but
they share the same exit code 2 rather than being distinct. -/
theorem C9_same_exit_code_amended :
    runOnceConnCheck none none = Except.error 2 ∧
    mainDispatch true true = MainAction.exitError 2 ∧ (2 : Nat) ≠ 0 :=
  ⟨rfl, rfl, by decide⟩

/-- Claim C3: for a blob that is not yet in the ledger and whose download
succeeds, the committed operations are exactly the event and alert appends
for its records followed by the single marker commit, so every append is
committed strictly before mark_blob; and at the moment the marker is
committed every alert row references an already-persisted event. -/
theorem C3_appends_precede_marker {rules : List Rule} {loads : String → Option JValue}
    {env : PipelineEnv} {st : Store} {b : BlobMeta} {raw : String}
    (hproc : st.blob_processed b.container b.blob_name b.etag = false)
    (hdl : env.download b = Except.ok raw) (hv : alertsValid st) :
    ∃ pre, blobOps rules loads env st b
        = pre ++ [Op.markBlob b.container b.blob_name b.etag]
      ∧ (∀ op ∈ pre, op.isMark = false)
      ∧ alertsValid (applyOps st pre) := by
  refine ⟨recsOps rules b.container b.blob_name st.nextId
    (parse_blob_bytes loads raw.data), ?_, ?_, ?_⟩
  · exact blobOps_of_download hproc hdl
  · exact recsOps_no_mark rules _ _ _ _
  · exact alertsValid_recsOps rules _ _ _ st hv

/-- Witness for C3_appends_precede_marker on a fresh store and an empty blob. -/
theorem C3_witness :
    emptyStore.blob_processed c3Blob.container c3Blob.blob_name c3Blob.etag = false ∧
    c3Env.download c3Blob = Except.ok "" ∧ alertsValid emptyStore ∧
    (∃ pre, blobOps [] stubLoads c3Env emptyStore c3Blob
        = pre ++ [Op.markBlob c3Blob.container c3Blob.blob_name c3Blob.etag]
      ∧ (∀ op ∈ pre, op.isMark = false)
      ∧ alertsValid (applyOps emptyStore pre)) :=
  ⟨rfl, rfl, fun a ha => absurd ha (List.not_mem_nil a),
    C3_appends_precede_marker rfl rfl (fun a ha => absurd ha (List.not_mem_nil a))⟩

/-- Claim C4: a blob not yet in the ledger ends the cycle marked processed
exactly when its download succeeded; a failed download leaves the store
untouched (so the blob is retried), while a successful download is marked
even though record processing may have aborted on a failure. -/
theorem C4_mark_iff_download_ok {rules : List Rule} {loads : String → Option JValue}
    {env : PipelineEnv} {st : Store} {b : BlobMeta}
    (h : st.blob_processed b.container b.blob_name b.etag = false) :
    ((processBlob rules loads env st b).blob_processed b.container b.blob_name b.etag
        = true ↔ ∃ raw, env.download b = Except.ok raw)
    ∧ (∀ e, env.download b = Except.error e →
        processBlob rules loads env st b = st) := by
  cases hd : env.download b with
  | error e =>
    have hstore : processBlob rules loads env st b = st := by
      unfold processBlob
      rw [blobOps_of_download_failed h hd]
      rfl
    refine ⟨?_, fun e' _ => hstore⟩
    rw [hstore]
    constructor
    · intro htrue
      rw [h] at htrue
      cases htrue
    · rintro ⟨raw, hraw⟩
      cases hraw
  | ok raw =>
    refine ⟨⟨fun _ => ⟨raw, rfl⟩, fun _ => ?_⟩, fun e' he' => ?_⟩
    · unfold processBlob
      rw [blobOps_of_download h hd, applyOps_append]
      exact mark_blob_processed _ _ _ _ _
    · cases he'

/-- Witness for C4_mark_iff_download_ok: successful and failed download at a
concrete blob and fresh store. -/
theorem C4_witness :
    emptyStore.blob_processed c4Blob.container c4Blob.blob_name c4Blob.etag = false ∧
    (((processBlob [] stubLoads c4EnvOk emptyStore c4Blob).blob_processed
        c4Blob.container c4Blob.blob_name c4Blob.etag = true
      ↔ ∃ raw, c4EnvOk.download c4Blob = Except.ok raw)
      ∧ (∀ e, c4EnvOk.download c4Blob = Except.error e →
          processBlob [] stubLoads c4EnvOk emptyStore c4Blob = emptyStore)) ∧
    (((processBlob [] stubLoads c4EnvBad emptyStore c4Blob).blob_processed
        c4Blob.container c4Blob.blob_name c4Blob.etag = true
      ↔ ∃ raw, c4EnvBad.download c4Blob = Except.ok raw)
      ∧ (∀ e, c4EnvBad.download c4Blob = Except.error e →
          processBlob [] stubLoads c4EnvBad emptyStore c4Blob = emptyStore)) :=
  ⟨rfl, C4_mark_iff_download_ok rfl, C4_mark_iff_download_ok rfl⟩

/-- Claim C5: if every blob listed by the connector is already present in
the processed-blobs ledger under its (container, name) key, a cycle inserts
no new event rows and no new alert rows. -/
theorem C5_no_new_rows {rules : List Rule} {loads : String → Option JValue}
    {env : PipelineEnv} {st : Store}
    (h : ∀ b ∈ env.blobs, st.blob_processed b.container b.blob_name b.etag = true) :
    (run_once rules loads env st).events = st.events ∧
    (run_once rules loads env st).alerts = st.alerts := by
  unfold run_once
  rw [foldl_processBlob_skip env.blobs st h]
  exact ⟨rfl, rfl⟩

/-- Witness for C5_no_new_rows: the single listed blob is in the ledger
(under a different change token, which is ignored). -/
theorem C5_witness :
    (∀ b ∈ c5Env.blobs, c5Store.blob_processed b.container b.blob_name b.etag = true) ∧
    (run_once [] stubLoads c5Env c5Store).events = c5Store.events ∧
    (run_once [] stubLoads c5Env c5Store).alerts = c5Store.alerts :=
  ⟨by decide, C5_no_new_rows (by decide)⟩

/-- Claim C6: parse_blob_bytes implements the ordered first-success-wins
policy of the spec for every body and every json.loads behaviour, and an
empty or whitespace-only body yields the empty sequence. -/
theorem C6_parse_policy (loads : String → Option JValue) (b : List Char) :
    parse_blob_bytes loads b = parseSpecPolicy loads b ∧
    ((pyStrip b).isEmpty = true → parse_blob_bytes loads b = []) := by
  refine ⟨parse_blob_bytes_eq_policy loads b, fun he => ?_⟩
  unfold parse_blob_bytes
  simp [he]

/-- Witness for C6_parse_policy at a concrete whitespace-only body. -/
theorem C6_witness :
    (pyStrip " \t\n".data).isEmpty = true ∧
    parse_blob_bytes stubLoads " \t\n".data = parseSpecPolicy stubLoads " \t\n".data ∧
    parse_blob_bytes stubLoads " \t\n".data = [] :=
  ⟨by decide, (C6_parse_policy stubLoads _).1, (C6_parse_policy stubLoads _).2 (by decide)⟩

/-- Claim C7: a rule whose contains-clause sets "any" to the empty candidate
list matches no event: event_matches is false for that rule on every event. -/
theorem C7_empty_any_never_matches {rule : Rule} {ev : Event} {c : ContainsClause}
    (hc : rule.whenCl.contains = some c) (hany : c.any = some ([] : List String)) :
    event_matches rule ev = false := by
  unfold event_matches
  dsimp only
  split
  · rfl
  · rw [hc]
    dsimp only
    have htr : containsTruthy c = true := by
      unfold containsTruthy
      rw [hany]
      simp
    rw [htr]
    simp only [Bool.not_true, Bool.false_eq_true, if_false]
    cases hf : c.field with
    | none => rfl
    | some f =>
      split
      · rfl
      · rw [hany]
        simp

/-- Witness for C7_empty_any_never_matches at a concrete rule and event. -/
theorem C7_witness :
    c7Rule.whenCl.contains = some ⟨some "request_uri", none, some []⟩ ∧
    event_matches c7Rule c7Event = false :=
  ⟨rfl, C7_empty_any_never_matches rfl rfl⟩

/-- Claim C10, counterexample: a rule whose contains-clause is present but
is the empty mapping (so it lacks a "field" key) matches events; the falsy
empty dict skips the contains branch entirely. -/
theorem C10_counterexample :
    c10Rule.whenCl.contains = some ⟨none, none, none⟩ ∧
    event_matches c10Rule c10Event = true :=
  ⟨rfl, rfl⟩

/-- Claim C10, amended: a rule whose contains-clause is present and
non-empty (it has at least one of the "all"/"any" keys) but lacks the
"field" key, or whose "field" value is the empty string, matches no event;
a present-but-empty contains-clause is treated as absent and imposes no
constraint. -/
theorem C10_missing_field_amended {rule : Rule} {ev : Event} {c : ContainsClause}
    (hc : rule.whenCl.contains = some c)
    (hf : (c.field = none ∧ (c.all.isSome = true ∨ c.any.isSome = true))
      ∨ c.field = some "") :
    event_matches rule ev = false := by
  unfold event_matches
  dsimp only
  split
  · rfl
  · rw [hc]
    dsimp only
    rcases hf with ⟨hfn, hsome⟩ | hfe
    · have htr : containsTruthy c = true := by
        unfold containsTruthy
        rcases hsome with hs | hs
        · rw [hs]
          simp
        · rw [hs]
          simp
      rw [htr]
      simp only [Bool.not_true, Bool.false_eq_true, if_false]
      rw [hfn]
    · have htr : containsTruthy c = true := by
        unfold containsTruthy
        rw [hfe]
        simp
      rw [htr]
      simp only [Bool.not_true, Bool.false_eq_true, if_false]
      rw [hfe]
      simp

/-- Witness for C10_missing_field_amended at a concrete rule and event. -/
theorem C10_witness :
    c10WitnessRule.whenCl.contains = some ⟨none, none, some ["x"]⟩ ∧
    event_matches c10WitnessRule c10Event = false :=
  ⟨rfl, C10_missing_field_amended rfl (Or.inl ⟨rfl, Or.inr rfl⟩)⟩


end AzLure
